import Mathlib

/-!
Verification development for `stitch_videos.py`, a script that inserts timed
audio narrations (with cursor-trajectory overlays) into a base video.

Python strings are modelled as `List Char` (`PyStr`), real-valued times as `ℚ`
(the script only ever manipulates times by `+ - / <`, never by any operation
that distinguishes floats from exact rationals at the granularity of these
claims).  moviepy clips are modelled by the view they denote into the base
video: an `offset` into the original footage and a `dur`ation; moviepy's
documented `Clip.subclip` semantics (negative times count from the end of the
clip, a start time beyond the clip's duration raises `ValueError`) are
reproduced in `subclip`.  Fallible Python code returns `Except MErr`.
-/

/-- A Python string, as its list of characters. -/
abbrev PyStr := List Char

/-- Python string comparison `a <= b` (lexicographic on code points), the
order used by the built-in `sorted` in `stitch_videos.py` lines 40 and 42. -/
def strLe : PyStr → PyStr → Bool
  | [], _ => true
  | _ :: _, [] => false
  | a :: as, b :: bs => if a < b then true else if b < a then false else strLe as bs

/-- The relation form of `strLe`. -/
def pyLe (a b : PyStr) : Prop := strLe a b = true

instance pyLe.decRel : DecidableRel pyLe :=
  fun a b => inferInstanceAs (Decidable (strLe a b = true))

/-- Python `sorted(...)`: the unique permutation of `l` that is sorted
under string comparison (all lists the script sorts have distinct entries, so
stability is irrelevant and insertion sort computes the same list). -/
def pySorted (l : List PyStr) : List PyStr := List.insertionSort pyLe l

/-- The order on keys `k a` pulled back along `k`; `pySorted` applied to
`l.map k` is `map k` of `l` sorted under `keyLe k`. -/
def keyLe (k : PyStr → PyStr) (a b : PyStr) : Prop := strLe (k a) (k b) = true

instance keyLe.decRel (k : PyStr → PyStr) : DecidableRel (keyLe k) :=
  fun a b => inferInstanceAs (Decidable (strLe (k a) (k b) = true))

/-- Python `os.path.join(dir, f)` for a relative `f` and a `dir` without a trailing
separator: `dir + "/" + f`. -/
def pyJoin (d f : PyStr) : PyStr := d ++ '/' :: f

/-- Python `os.path.basename(p)` (posix): the suffix of `p` after the last `'/'`. -/
def pyBasename (p : PyStr) : PyStr :=
  (p.reverse.takeWhile (fun c => c ≠ '/')).reverse

/-- The first component of `os.path.splitext(p)` for a path without
separators: everything before the last `'.'`, except that the split only
happens when some character strictly before that dot is not itself a dot
(CPython's `genericpath._splitext`). -/
def splitextBase (p : PyStr) : PyStr :=
  let rev := p.reverse
  let ext := rev.takeWhile (fun c => c ≠ '.')
  if ext.length = rev.length then p
  else
    let pre := rev.drop (ext.length + 1)
    if pre.any (fun c => c ≠ '.') then pre.reverse else p

/-- Python `f.endswith(suffix)`. -/
def pyEndsWith (suffix f : PyStr) : Bool := suffix.isSuffixOf f

/-- The `".wav"` literal of line 40. -/
def wavExt : PyStr := ['.', 'w', 'a', 'v']

/-- The `".json"` literal of line 42. -/
def jsonExt : PyStr := ['.', 'j', 's', 'o', 'n']

/-- The numeric value of a digit string. -/
def digitsVal (s : PyStr) : ℕ := s.foldl (fun acc c => 10 * acc + (c.toNat - 48)) 0

/-- Python `int(s)` on the file base names (line 57), in the common
whitespace-free form: an optional minus sign followed by at least one digit;
anything else raises `ValueError`, modelled as `none`. -/
def pyInt (s : PyStr) : Option ℤ :=
  match s with
  | '-' :: rest =>
    if rest ≠ [] ∧ rest.all Char.isDigit then some (-(digitsVal rest : ℤ)) else none
  | _ =>
    if s ≠ [] ∧ s.all Char.isDigit then some (digitsVal s : ℤ) else none

/-- The errors `stitch_video_audio` can raise. -/
inductive MErr where
  /-- The `assert` on line 45 fails (`AssertionError`). -/
  | assertFailed
  /-- `int(...)` on line 57 fails (`ValueError`). -/
  | valueErrorInt
  /-- moviepy `Clip.subclip` with a start time beyond the clip's duration
  (`ValueError`), possible on lines 89-90. -/
  | subclipStart
  /-- Line 94 reads the local variable `clip2` before any assignment
  (`UnboundLocalError`). -/
  | unboundClip2
deriving DecidableEq

/-- A moviepy clip that shows a contiguous view of the base video (or a
frozen/overlay composite, for which only `dur` is meaningful): `offset` is
where the view starts inside the original footage and `dur` its duration. -/
structure Clip where
  offset : ℚ
  dur : ℚ
deriving DecidableEq

/-- moviepy 1.x `Clip.subclip(a, b)` on a clip of duration `c.dur`: a negative
time counts from the end of the clip; a start time beyond the clip's duration
raises `ValueError`; the result views the same footage shifted by the start
time and has duration `end - start`. -/
def subclip (c : Clip) (a b : ℚ) : Except MErr Clip :=
  let a' := if a < 0 then c.dur + a else a
  if a' > c.dur then Except.error MErr.subclipStart
  else
    let b' := if b < 0 then c.dur + b else b
    Except.ok ⟨c.offset + a', b' - a'⟩

/-- One entry of `final_clips`: either a segment of the base video (with its
position in the original footage and its duration) or the narration overlay
clip of the unit at position `idx` in processing order, whose duration is that
unit's audio duration. -/
inductive Seg where
  | base (offset dur : ℚ)
  | overlay (idx : ℕ) (dur : ℚ)
deriving DecidableEq

/-- The duration a segment contributes to the concatenated output. -/
def segDur : Seg → ℚ
  | Seg.base _ d => d
  | Seg.overlay _ d => d

/-- Total duration of `concatenate_videoclips(final_clips)`. -/
def totalDur (segs : List Seg) : ℚ := (segs.map segDur).sum

/-- Line 87: `relative_insertion_times = [0] + [insertion_times[i] -
insertion_times[i-1] for i in range(1, len(insertion_times))]`. -/
def relative_insertion_times (insertion_times : List ℚ) : List ℚ :=
  0 :: List.zipWith (fun a b => a - b) insertion_times.tail insertion_times

/-- Lines 88-93, the second `for` loop: walk the remaining tail of the video
(`video`), split it at each relative insertion time, emit the head segment and
the unit's overlay clip, and keep the new tail.  The Python local `clip2` is
threaded as `cv` (`none` = not yet assigned); each iteration assigns it.
Items are `(relative_insert_time, unit index, unit audio duration)`. -/
def assemblyLoop (video : Clip) (cv : Option Clip) :
    List (ℚ × ℕ × ℚ) → Except MErr (List Seg × Option Clip)
  | [] => Except.ok ([], cv)
  | (r, i, d) :: rest =>
    match subclip video 0 r with
    | Except.error e => Except.error e
    | Except.ok c1 =>
      match subclip video r video.dur with
      | Except.error e => Except.error e
      | Except.ok c2 =>
        match assemblyLoop c2 (some c2) rest with
        | Except.error e => Except.error e
        | Except.ok (segs, cv') =>
          Except.ok (Seg.base c1.offset c1.dur :: Seg.overlay i d :: segs, cv')

/-- Lines 87-94: build `relative_insertion_times`, zip it with the insertion
clips (represented by index and audio duration), run the assembly loop
starting from the whole video, then `final_clips.append(clip2)` — which raises
`UnboundLocalError` when `clip2` was never assigned (no loop iteration ran;
note the two loops of the script always run the same number of times). -/
def assemble (videoDuration : ℚ) (times durs : List ℚ) : Except MErr (List Seg) :=
  match assemblyLoop ⟨0, videoDuration⟩ none
      ((relative_insertion_times times).zip ((List.range durs.length).zip durs)) with
  | Except.error e => Except.error e
  | Except.ok (_, none) => Except.error MErr.unboundClip2
  | Except.ok (segs, some c) => Except.ok (segs ++ [Seg.base c.offset c.dur])

/-- Line 40: `sorted([os.path.join(audio_dir, f) for f in os.listdir(audio_dir)
if f.endswith('.wav')])`; `files` is the directory listing. -/
def audio_files (audio_dir : PyStr) (files : List PyStr) : List PyStr :=
  pySorted ((files.filter (fun f => pyEndsWith wavExt f)).map (fun f => pyJoin audio_dir f))

/-- Line 42, same for `'.json'`. -/
def json_files (audio_dir : PyStr) (files : List PyStr) : List PyStr :=
  pySorted ((files.filter (fun f => pyEndsWith jsonExt f)).map (fun f => pyJoin audio_dir f))

/-- Line 45, left side: `set([os.path.splitext(os.path.basename(f))[0] for f
in audio_files])`. -/
def audioBaseSet (audio_dir : PyStr) (files : List PyStr) : Finset PyStr :=
  ((audio_files audio_dir files).map (fun f => splitextBase (pyBasename f))).toFinset

/-- Line 45, right side, for `json_files`. -/
def jsonBaseSet (audio_dir : PyStr) (files : List PyStr) : Finset PyStr :=
  ((json_files audio_dir files).map (fun f => splitextBase (pyBasename f))).toFinset

/-- Lines 54-57 of the first `for` loop: for each `(audio_file, json_file)`
pair, `insertion_time = int(os.path.splitext(os.path.basename(audio_file))[0])
/ 1000.0`; a non-numeric base name raises `ValueError` at the first offender. -/
def extractTimes : List (PyStr × PyStr) → Except MErr (List ℚ)
  | [] => Except.ok []
  | p :: rest =>
    match pyInt (splitextBase (pyBasename p.1)) with
    | none => Except.error MErr.valueErrorInt
    | some n =>
      match extractTimes rest with
      | Except.error e => Except.error e
      | Except.ok ts => Except.ok ((n : ℚ) / 1000 :: ts)

/-- The function `stitch_video_audio(video_file, audio_dir, output_file)`, lines 38-98, at
the timeline level.  The base video is represented by its duration
`videoDuration`; `files` is `os.listdir(audio_dir)`; `audioDuration f` is the
duration moviepy reports for the audio file `f` (`AudioFileClip(f).duration`).
Steps, in source order: build the two sorted file lists (lines 40-42), run the
`assert` of line 45 (before any media is touched), extract the insertion
times (lines 54-57), then assemble the timeline (lines 87-94).  The overlay
construction of lines 67-83 (freeze, cursor drawing, `set_audio`) only
determines the pixels inside each overlay clip, never the timeline structure,
so each insertion clip is represented by its index and audio duration; the
`frozen_frame` computed on line 72 is never used by the script.  The returned
value is the `final_clips` list handed to `concatenate_videoclips`. -/
def stitch_video_audio (audio_dir : PyStr) (files : List PyStr)
    (videoDuration : ℚ) (audioDuration : PyStr → ℚ) : Except MErr (List Seg) :=
  if audioBaseSet audio_dir files = jsonBaseSet audio_dir files then
    match extractTimes ((audio_files audio_dir files).zip (json_files audio_dir files)) with
    | Except.error e => Except.error e
    | Except.ok times =>
      assemble videoDuration times
        (((audio_files audio_dir files).zip (json_files audio_dir files)).map
          (fun p => audioDuration p.1))
  else Except.error MErr.assertFailed

/-! ### The `CursorClip` frame producer (lines 19-36) -/

/-- A frame of the overlay, reduced to what the claims speak about: which
pixels of the (fixed-size) frozen base frame currently carry red marker ink.
`true` = the pixel has been painted by some `draw.ellipse` call. -/
abbrev Img := ℤ × ℤ → Bool

/-- Membership of an integer pixel in the filled circle PIL draws for
`draw.ellipse((x-5, y-5, x+5, y+5), fill='red')`: the disc of radius 5 around
the trajectory point. -/
def inCircle (cx cy : ℚ) (p : ℤ × ℤ) : Bool :=
  decide (((p.1 : ℚ) - cx) ^ 2 + ((p.2 : ℚ) - cy) ^ 2 ≤ 25)

/-- Line 31-32: painting one marker onto the current mutable image buffer —
previously painted pixels stay painted, the disc around `c` is added. -/
def drawEllipse (img : Img) (c : ℚ × ℚ) : Img :=
  fun p => img p || inCircle c.1 c.2 p

/-- Line 22: `self.cursor_duration = duration / len(trajectory)` (an empty
trajectory would raise `ZeroDivisionError`; the claims assume length ≥ 1). -/
def cursor_duration (duration : ℚ) (trajectory : List (ℚ × ℚ)) : ℚ :=
  duration / trajectory.length

/-- Line 26: `i = int(t / self.cursor_duration)`; moviepy only requests
`t ∈ [0, duration)`, where Python's truncation toward zero is the floor. -/
def cursorIndex (cursorDuration t : ℚ) : ℕ := (Int.floor (t / cursorDuration)).toNat

/-- The closure `make_frame(t)` (lines 25-34) as a transition on the mutable
`self.frame` buffer: when the sample index is still inside the trajectory a
new marker is painted onto the buffer, otherwise the buffer is returned
unchanged (frozen at its last drawn state). -/
def make_frame (trajectory : List (ℚ × ℚ)) (cursorDuration : ℚ) (t : ℚ) (frame : Img) : Img :=
  if h : cursorIndex cursorDuration t < trajectory.length then
    drawEllipse frame (trajectory.get ⟨cursorIndex cursorDuration t, h⟩)
  else frame

/-- The buffer after a sequence of frame requests at times `ts` (moviepy pulls
frames in non-decreasing time order; the buffer is carried across calls). -/
def runFrames (trajectory : List (ℚ × ℚ)) (cursorDuration : ℚ) (frame : Img)
    (ts : List ℚ) : Img :=
  ts.foldl (fun img t => make_frame trajectory cursorDuration t img) frame

/-! ### The command-line surface (lines 103-107) -/

/-- One `parser.add_argument('--…', type=str, help=…)` call.  None of the
three calls in the script passes `required=True`, and argparse treats a
`--`-prefixed argument as optional by default, hence `required := false`. -/
structure ArgSpec where
  flag : PyStr
  required : Bool
deriving DecidableEq

/-- The three `add_argument` calls of lines 104-106. -/
def cliArgSpecs : List ArgSpec :=
  [⟨"--video-file".toList, false⟩,
   ⟨"--narration-dir".toList, false⟩,
   ⟨"--output-file".toList, false⟩]

/-- The parsed `args` namespace: each attribute is `None` (`none`) when its
flag was absent. -/
structure ParsedArgs where
  video_file : Option PyStr
  narration_dir : Option PyStr
  output_file : Option PyStr
deriving DecidableEq

/-- Store a flag's value into the namespace. -/
def setArg (a : ParsedArgs) (flag v : PyStr) : ParsedArgs :=
  if flag = "--video-file".toList then ⟨some v, a.narration_dir, a.output_file⟩
  else if flag = "--narration-dir".toList then ⟨a.video_file, some v, a.output_file⟩
  else ⟨a.video_file, a.narration_dir, some v⟩

/-- Read a flag's value from the namespace. -/
def getArg (a : ParsedArgs) (flag : PyStr) : Option PyStr :=
  if flag = "--video-file".toList then a.video_file
  else if flag = "--narration-dir".toList then a.narration_dir
  else a.output_file

/-- Consume the command line token by token: a known flag takes the next token
as its value (missing value = usage error), an unknown token is a usage
error.  `none` models argparse exiting with a usage error. -/
def parseTokens (a : ParsedArgs) : List PyStr → Option ParsedArgs
  | [] => some a
  | f :: rest =>
    if (cliArgSpecs.map ArgSpec.flag).contains f then
      match rest with
      | [] => none
      | v :: rest' => parseTokens (setArg a f v) rest'
    else none

/-- Python `parser.parse_args(argv)`: consume the tokens, then fail with a usage
error when a flag marked `required` was not supplied (argparse's final
required-arguments check). -/
def parse_args (argv : List PyStr) : Option ParsedArgs :=
  match parseTokens ⟨none, none, none⟩ argv with
  | none => none
  | some a =>
    if cliArgSpecs.any (fun s => s.required && (getArg a s.flag).isNone) then none
    else some a

/-- Success precondition for one pass of the assembly loop: each relative cut
time is non-negative and no larger than the duration of the remaining tail. -/
def StepsOk (d : ℚ) : List ℚ → Prop
  | [] => True
  | r :: rs => 0 ≤ r ∧ r ≤ d ∧ StepsOk (d - r) rs

/-! ### Properties of Python string comparison -/

lemma strLe_refl (a : PyStr) : strLe a a = true := by
  induction a with
  | nil => rfl
  | cons c cs ih => simp [strLe, lt_irrefl, ih]

lemma strLe_cons (x y : Char) (xs ys : PyStr) :
    strLe (x :: xs) (y :: ys) = true ↔ x < y ∨ (x = y ∧ strLe xs ys = true) := by
  by_cases h1 : x < y
  · simp [strLe, h1]
  · by_cases h2 : y < x
    · have hne : x ≠ y := fun h => absurd (h ▸ h2) (lt_irrefl x)
      simp [strLe, h1, h2, hne]
    · have hxy : x = y := le_antisymm (not_lt.mp h2) (not_lt.mp h1)
      simp [strLe, h1, h2, hxy]

lemma strLe_total (a : PyStr) : ∀ b, strLe a b = true ∨ strLe b a = true := by
  induction a with
  | nil => intro b; left; rfl
  | cons x xs ih =>
    intro b
    cases b with
    | nil => right; rfl
    | cons y ys =>
      rcases lt_trichotomy x y with h | h | h
      · left; exact (strLe_cons x y xs ys).mpr (Or.inl h)
      · subst h
        rcases ih ys with h' | h'
        · left; exact (strLe_cons x x xs ys).mpr (Or.inr ⟨rfl, h'⟩)
        · right; exact (strLe_cons x x ys xs).mpr (Or.inr ⟨rfl, h'⟩)
      · right; exact (strLe_cons y x ys xs).mpr (Or.inl h)

lemma strLe_trans (a : PyStr) : ∀ b c, strLe a b = true → strLe b c = true → strLe a c = true := by
  induction a with
  | nil => intro b c _ _; rfl
  | cons x xs ih =>
    intro b c hab hbc
    cases b with
    | nil => exact absurd hab (by simp [strLe])
    | cons y ys =>
      cases c with
      | nil => exact absurd hbc (by simp [strLe])
      | cons z zs =>
        rcases (strLe_cons x y xs ys).mp hab with hxy | ⟨hxy, hxs⟩
        · rcases (strLe_cons y z ys zs).mp hbc with hyz | ⟨hyz, _⟩
          · exact (strLe_cons x z xs zs).mpr (Or.inl (lt_trans hxy hyz))
          · exact (strLe_cons x z xs zs).mpr (Or.inl (hyz ▸ hxy))
        · subst hxy
          rcases (strLe_cons x z ys zs).mp hbc with hyz | ⟨hyz, hys⟩
          · exact (strLe_cons x z xs zs).mpr (Or.inl hyz)
          · exact (strLe_cons x z xs zs).mpr (Or.inr ⟨hyz, ih ys zs hxs hys⟩)

lemma strLe_antisymm (a : PyStr) : ∀ b, strLe a b = true → strLe b a = true → a = b := by
  induction a with
  | nil =>
    intro b _ hba
    cases b with
    | nil => rfl
    | cons y ys => exact absurd hba (by simp [strLe])
  | cons x xs ih =>
    intro b hab hba
    cases b with
    | nil => exact absurd hab (by simp [strLe])
    | cons y ys =>
      rcases (strLe_cons x y xs ys).mp hab with hxy | ⟨hxy, hxs⟩
      · rcases (strLe_cons y x ys xs).mp hba with hyx | ⟨hyx, _⟩
        · exact absurd hxy (lt_asymm hyx)
        · exact absurd hxy (hyx ▸ lt_irrefl y)
      · subst hxy
        rcases (strLe_cons x x ys xs).mp hba with hyx | ⟨_, hys⟩
        · exact absurd hyx (lt_irrefl x)
        · rw [ih ys hxs hys]

lemma strLe_append_left (p : PyStr) : ∀ x y, strLe (p ++ x) (p ++ y) = strLe x y := by
  induction p with
  | nil => intro x y; rfl
  | cons c cs ih => intro x y; simp [strLe, lt_irrefl, ih]

/-- Comparing `base ++ extension` strings: when neither base contains a dot,
the comparison result does not depend on which dot-led extension is appended
(both sides use the same extension). -/
lemma strLe_ext_swap (x : PyStr) : ∀ (y u v : PyStr), '.' ∉ x → '.' ∉ y →
    strLe (x ++ '.' :: u) (y ++ '.' :: u) = strLe (x ++ '.' :: v) (y ++ '.' :: v) := by
  induction x with
  | nil =>
    intro y u v _ hy
    cases y with
    | nil => simp [strLe_refl]
    | cons d ds =>
      have hd : d ≠ '.' := fun h => hy (h ▸ List.mem_cons_self d ds)
      have hd' : ¬ ('.' : Char) = d := fun h => hd h.symm
      rcases lt_trichotomy '.' d with h | h | h
      · simp [strLe, h]
      · exact absurd h hd'
      · simp [strLe, h, not_lt.mpr (le_of_lt h)]
  | cons c cs ih =>
    intro y u v hx hy
    have hc : c ≠ '.' := fun h => hx (h ▸ List.mem_cons_self c cs)
    cases y with
    | nil =>
      rcases lt_trichotomy c '.' with h | h | h
      · simp [strLe, h]
      · exact absurd h hc
      · simp [strLe, h, not_lt.mpr (le_of_lt h)]
    | cons d ds =>
      rcases lt_trichotomy c d with h | h | h
      · simp [strLe, h]
      · subst h
        simp only [List.cons_append, strLe, lt_irrefl, if_false]
        exact ih ds u v (fun hm => hx (List.mem_cons_of_mem c hm))
          (fun hm => hy (List.mem_cons_of_mem c hm))
      · simp [strLe, h, not_lt.mpr (le_of_lt h)]

/-! ### Cursor overlay claims -/

lemma make_frame_keeps (trajectory : List (ℚ × ℚ)) (cd t : ℚ) (img : Img) (p : ℤ × ℤ)
    (h : img p = true) : make_frame trajectory cd t img p = true := by
  unfold make_frame
  split
  · simp [drawEllipse, h]
  · exact h

lemma runFrames_keeps (trajectory : List (ℚ × ℚ)) (cd : ℚ) (p : ℤ × ℤ) :
    ∀ (ts : List ℚ) (img : Img), img p = true → runFrames trajectory cd img ts p = true := by
  intro ts
  induction ts with
  | nil => intro img h; exact h
  | cons t ts' ih =>
    intro img h
    exact ih (make_frame trajectory cd t img) (make_frame_keeps trajectory cd t img p h)

lemma runFrames_append (trajectory : List (ℚ × ℚ)) (cd : ℚ) (img : Img) (l1 l2 : List ℚ) :
    runFrames trajectory cd img (l1 ++ l2) = runFrames trajectory cd (runFrames trajectory cd img l1) l2 := by
  unfold runFrames
  exact List.foldl_append _ _ l1 l2

/-- C6: within one narration unit's overlay, with frames requested in
non-decreasing time order, every pixel painted by a marker during the frames
`pre` is still painted after the later frames `post` have been produced: the
frame producer draws each new marker onto the same mutable buffer, only ever
adding red ink (an overdraw at the same location repaints the same red), so
the drawn region of frame `k` persists in every later frame. -/
theorem cursor_marker_persists (trajectory : List (ℚ × ℚ)) (cd : ℚ) (img : Img)
    (pre post : List ℚ) (p : ℤ × ℤ)
    (hmono : List.Chain' (· ≤ ·) (pre ++ post))
    (hdrawn : runFrames trajectory cd img pre p = true) :
    runFrames trajectory cd img (pre ++ post) p = true := by
  rw [runFrames_append]
  exact runFrames_keeps trajectory cd p post _ hdrawn

/-- Witness for C6 at a concrete input: the marker painted at the first frame
request (time 0, trajectory point (0,0)) is still present at pixel (0,0)
after the later requests at times 1 and 2. -/
theorem cursor_marker_persists_witness :
    runFrames [((0 : ℚ), 0)] 1 (fun _ => false) ([0] ++ [1, 2]) (0, 0) = true := by
  refine cursor_marker_persists [((0 : ℚ), 0)] 1 (fun _ => false) [0] [1, 2] (0, 0) ?_ ?_
  · norm_num [List.chain'_cons]
  · show make_frame [((0 : ℚ), 0)] 1 0 (fun _ => false) (0, 0) = true
    have h0 : cursorIndex 1 0 = 0 := by
      unfold cursorIndex
      norm_num
    unfold make_frame
    rw [h0]
    simp [drawEllipse, inCircle]

/-- C5: the sample index computed by `make_frame` is
`floor(t / (duration / len(trajectory)))`; for every frame time
`t ∈ [0, D)` that index is strictly below the trajectory length and the frame
produced is the buffer with a marker drawn at `trajectory[index]`; whenever
the index reaches the trajectory length the buffer is returned unchanged
(frozen at its last drawn state). -/
theorem cursor_trajectory_stretching (trajectory : List (ℚ × ℚ)) (D : ℚ) (img : Img)
    (hL : 0 < trajectory.length) (hD : 0 < D) :
    (∀ t : ℚ, 0 ≤ t → t < D →
      cursorIndex (cursor_duration D trajectory) t
          = (Int.floor (t / (D / trajectory.length))).toNat ∧
      ∃ h : cursorIndex (cursor_duration D trajectory) t < trajectory.length,
        make_frame trajectory (cursor_duration D trajectory) t img
          = drawEllipse img (trajectory.get ⟨cursorIndex (cursor_duration D trajectory) t, h⟩)) ∧
    (∀ t : ℚ, trajectory.length ≤ cursorIndex (cursor_duration D trajectory) t →
      make_frame trajectory (cursor_duration D trajectory) t img = img) := by
  constructor
  · intro t ht0 htD
    have hLQ : (0 : ℚ) < (trajectory.length : ℚ) := by exact_mod_cast hL
    have hcd : 0 < cursor_duration D trajectory := div_pos hD hLQ
    have hval : t / cursor_duration D trajectory < (trajectory.length : ℚ) := by
      rw [div_lt_iff₀ hcd, cursor_duration, mul_comm, div_mul_cancel₀ D (ne_of_gt hLQ)]
      exact htD
    have hfloor : Int.floor (t / cursor_duration D trajectory) < (trajectory.length : ℤ) := by
      rw [Int.floor_lt]
      exact_mod_cast hval
    have hfloor0 : 0 ≤ Int.floor (t / cursor_duration D trajectory) :=
      Int.floor_nonneg.mpr (div_nonneg ht0 (le_of_lt hcd))
    have hidx : cursorIndex (cursor_duration D trajectory) t < trajectory.length := by
      unfold cursorIndex
      exact (Int.toNat_lt hfloor0).mpr hfloor
    refine ⟨rfl, hidx, ?_⟩
    unfold make_frame
    rw [dif_pos hidx]
  · intro t hge
    unfold make_frame
    rw [dif_neg (not_lt.mpr hge)]

/-- Witness for C5 at a concrete input: a 2-point trajectory stretched over a
2-second narration; at `t = 1/2` the index is 0 and a marker is drawn there,
and at an exhausted index the buffer is unchanged. -/
theorem cursor_trajectory_stretching_witness :
    ∃ h : cursorIndex (cursor_duration 2 [((1 : ℚ), 1), (2, 2)]) (1/2)
        < [((1 : ℚ), 1), (2, 2)].length,
      make_frame [((1 : ℚ), 1), (2, 2)] (cursor_duration 2 [((1 : ℚ), 1), (2, 2)]) (1/2)
          (fun _ => false)
        = drawEllipse (fun _ => false)
            ([((1 : ℚ), 1), (2, 2)].get
              ⟨cursorIndex (cursor_duration 2 [((1 : ℚ), 1), (2, 2)]) (1/2), h⟩) :=
  ((cursor_trajectory_stretching [((1 : ℚ), 1), (2, 2)] 2 (fun _ => false)
    (by norm_num) (by norm_num)).1 (1/2) (by norm_num) (by norm_num)).2

/-! ### Retiming and placement claims -/

/-- C1: line 87 prepends the literal `0`, so the first emitted relative cut
time is always `0` — not the first unit's absolute insertion time as the
specification states (`relative[0] = absoluteInsertionTime[0]`); at the
concrete input `insertion_times = [3]` the code emits `[0]`, not `[3]`.
The later entries do match the claimed `relative[i] = t[i] - t[i-1]`. -/
theorem relative_insertion_times_head_zero :
    (∀ ts : List ℚ, (relative_insertion_times ts).head? = some 0) ∧
    relative_insertion_times [3] = [0] ∧ relative_insertion_times [3] ≠ [3] := by
  refine ⟨fun ts => rfl, rfl, ?_⟩
  simp [relative_insertion_times]

/-- C2: evaluating the full pipeline on a 5-second video with two units named
`1000.wav` (t = 1.0s) and `200.wav` (t = 0.2s).  Lexicographic sorting puts
`1000.wav` first, and the `[0] + …` retiming of line 87 shifts every cut
early, so the output timeline is: an empty base segment, the overlay of the
t = 1.0s unit (index 0), 4.2s of video from the start, the overlay of the
t = 0.2s unit (index 1), then the remaining 0.8s — the overlays appear in
the order 1.0s-unit, 0.2s-unit (not numeric-timestamp order), and neither is
preceded by the base content `[previous insertion, this insertion)`. -/
theorem stitch_overlays_out_of_order :
    stitch_video_audio "d".toList
      ["1000.wav".toList, "200.wav".toList, "1000.json".toList, "200.json".toList] 5 (fun _ => 1)
      = Except.ok [Seg.base 0 0, Seg.overlay 0 1, Seg.base 0 (21/5),
                   Seg.overlay 1 1, Seg.base (21/5) (4/5)] := by
  have h3 : audioBaseSet "d".toList
      ["1000.wav".toList, "200.wav".toList, "1000.json".toList, "200.json".toList]
      = jsonBaseSet "d".toList
      ["1000.wav".toList, "200.wav".toList, "1000.json".toList, "200.json".toList] := by decide
  have h1 : audio_files "d".toList
      ["1000.wav".toList, "200.wav".toList, "1000.json".toList, "200.json".toList]
      = ["d/1000.wav".toList, "d/200.wav".toList] := by decide
  have h2 : json_files "d".toList
      ["1000.wav".toList, "200.wav".toList, "1000.json".toList, "200.json".toList]
      = ["d/1000.json".toList, "d/200.json".toList] := by decide
  have h4 : pyInt (splitextBase (pyBasename
      ['d', '/', '1', '0', '0', '0', '.', 'w', 'a', 'v'])) = some 1000 := by decide
  have h5 : pyInt (splitextBase (pyBasename
      ['d', '/', '2', '0', '0', '.', 'w', 'a', 'v'])) = some 200 := by decide
  rw [stitch_video_audio, if_pos h3, h1, h2]
  norm_num [extractTimes, h4, h5, assemble, relative_insertion_times, assemblyLoop, subclip]

/-- C4: evaluating lines 87-94 for a single unit at t = 6s on a 5-second
video (all insertion times handled by the `insertion_time >= video.duration`
branch of lines 63-65).  The resulting timeline is the unit's overlay at the
very beginning — preceded by an empty segment and followed by the whole 5s of
footage — not appended at the end as the specification requires.  (In
addition, line 72 calls the media engine's `freeze` at `t = 6` on a 5s clip,
which moviepy answers with `ValueError`.) -/
theorem assemble_overflow_unit_prepended :
    assemble 5 [6] [2] = Except.ok [Seg.base 0 0, Seg.overlay 0 2, Seg.base 0 5] := by
  norm_num [assemble, relative_insertion_times, assemblyLoop, subclip]

/-- C8: the three `add_argument` calls of lines 104-106 pass no
`required=True`, so argparse treats all three flags as optional: an
invocation with no arguments at all parses successfully into
`Namespace(video_file=None, narration_dir=None, output_file=None)` instead of
exiting with a usage error, and the script then calls
`stitch_video_audio(None, None, None)`. -/
theorem parse_args_accepts_empty : parse_args [] = some ⟨none, none, none⟩ := rfl

/-! ### Error taxonomy of the pipeline -/

lemma subclip_error_eq (c : Clip) (a b : ℚ) (e : MErr)
    (h : subclip c a b = Except.error e) : e = MErr.subclipStart := by
  simp only [subclip] at h
  split at h
  all_goals split at h
  all_goals
    first
      | (injection h with h'
         exact h'.symm)
      | exact absurd h (by simp)

lemma extractTimes_error_eq :
    ∀ (ps : List (PyStr × PyStr)) (e : MErr),
      extractTimes ps = Except.error e → e = MErr.valueErrorInt := by
  intro ps
  induction ps with
  | nil =>
    intro e h
    exact absurd h (by simp [extractTimes])
  | cons p rest ih =>
    intro e h
    cases hp : pyInt (splitextBase (pyBasename p.1)) with
    | none =>
      simp only [extractTimes, hp] at h
      injection h with h'
      exact h'.symm
    | some n =>
      cases hr : extractTimes rest with
      | error e' =>
        simp only [extractTimes, hp, hr] at h
        injection h with h'
        exact h'.symm.trans (ih e' hr)
      | ok ts =>
        simp only [extractTimes, hp, hr] at h
        exact absurd h (by simp)

lemma assemblyLoop_error_eq :
    ∀ (items : List (ℚ × ℕ × ℚ)) (video : Clip) (cv : Option Clip) (e : MErr),
      assemblyLoop video cv items = Except.error e → e = MErr.subclipStart := by
  intro items
  induction items with
  | nil =>
    intro video cv e h
    exact absurd h (by simp [assemblyLoop])
  | cons x rest ih =>
    intro video cv e h
    obtain ⟨r, i, d⟩ := x
    cases h1 : subclip video 0 r with
    | error e1 =>
      simp only [assemblyLoop, h1] at h
      injection h with h'
      exact h'.symm.trans (subclip_error_eq video 0 r e1 h1)
    | ok c1 =>
      cases h2 : subclip video r video.dur with
      | error e2 =>
        simp only [assemblyLoop, h1, h2] at h
        injection h with h'
        exact h'.symm.trans (subclip_error_eq video r video.dur e2 h2)
      | ok c2 =>
        cases h3 : assemblyLoop c2 (some c2) rest with
        | error e3 =>
          simp only [assemblyLoop, h1, h2, h3] at h
          injection h with h'
          exact h'.symm.trans (ih c2 (some c2) e3 h3)
        | ok pr =>
          obtain ⟨segs, cv'⟩ := pr
          simp only [assemblyLoop, h1, h2, h3] at h
          exact absurd h (by simp)

lemma assemble_ne_assert (videoDuration : ℚ) (times durs : List ℚ) :
    assemble videoDuration times durs ≠ Except.error MErr.assertFailed := by
  intro h
  rw [assemble] at h
  cases hl : assemblyLoop ⟨0, videoDuration⟩ none
      ((relative_insertion_times times).zip ((List.range durs.length).zip durs)) with
  | error e =>
    rw [hl] at h
    injection h with h'
    have he := assemblyLoop_error_eq _ _ _ _ hl
    rw [he] at h'
    exact MErr.noConfusion h'
  | ok pr =>
    obtain ⟨segs, cv⟩ := pr
    cases cv with
    | none =>
      rw [hl] at h
      injection h with h'
      exact MErr.noConfusion h'
    | some c =>
      rw [hl] at h
      exact absurd h (by simp)

/-- C7: the loader aborts with the `AssertionError` of line 45 — before any
media processing, the `assert` precedes `VideoFileClip` on line 48 just as the
validation here precedes every other step of `stitch_video_audio` — exactly
when the set of audio base names differs from the set of trajectory base
names (in either direction); when the two sets are equal the run proceeds
past validation (whatever it does later, it never raises that error). -/
theorem validation_aborts_iff_base_sets_differ (audio_dir : PyStr) (files : List PyStr)
    (videoDuration : ℚ) (audioDuration : PyStr → ℚ) :
    stitch_video_audio audio_dir files videoDuration audioDuration
        = Except.error MErr.assertFailed
      ↔ audioBaseSet audio_dir files ≠ jsonBaseSet audio_dir files := by
  rw [stitch_video_audio]
  by_cases h : audioBaseSet audio_dir files = jsonBaseSet audio_dir files
  · rw [if_pos h]
    simp only [h, ne_eq, not_true_eq_false, iff_false]
    intro hcontra
    cases het : extractTimes ((audio_files audio_dir files).zip (json_files audio_dir files)) with
    | error e =>
      rw [het] at hcontra
      injection hcontra with h'
      have := extractTimes_error_eq _ e het
      rw [this] at h'
      exact MErr.noConfusion h'
    | ok ts =>
      rw [het] at hcontra
      exact assemble_ne_assert _ _ _ hcontra
  · rw [if_neg h]
    simp [h]

/-- C9: for a directory containing zero narration units (no `.wav` files; and
no stray `.json` files either, otherwise the line 45 assertion would abort
first), `stitch_video_audio` does not return the original video: both loops
iterate zero times, so the `final_clips.append(clip2)` of line 94 reads a
variable that was never assigned and the run dies with `UnboundLocalError`. -/
theorem empty_dir_unbound_clip2 (audio_dir : PyStr) (files : List PyStr)
    (videoDuration : ℚ) (audioDuration : PyStr → ℚ)
    (hwav : files.filter (fun f => pyEndsWith wavExt f) = [])
    (hjson : files.filter (fun f => pyEndsWith jsonExt f) = []) :
    stitch_video_audio audio_dir files videoDuration audioDuration
      = Except.error MErr.unboundClip2 := by
  have ha : audio_files audio_dir files = [] := by
    rw [audio_files, hwav]
    rfl
  have hj : json_files audio_dir files = [] := by
    rw [json_files, hjson]
    rfl
  rw [stitch_video_audio, if_pos]
  · rw [ha, hj]
    simp [extractTimes, assemble, relative_insertion_times, assemblyLoop]
  · rw [audioBaseSet, jsonBaseSet, ha, hj]

/-- Witness for C9: a directory whose only entry is `readme.txt` (no `.wav`,
no `.json`) makes the run fail with the unbound `clip2` error. -/
theorem empty_dir_unbound_clip2_witness :
    stitch_video_audio "d".toList ["readme.txt".toList] 7 (fun _ => 1)
      = Except.error MErr.unboundClip2 :=
  empty_dir_unbound_clip2 "d".toList ["readme.txt".toList] 7 (fun _ => 1)
    (by decide) (by decide)

/-! ### Duration conservation -/

lemma stepsOk_diffs :
    ∀ (l : List ℚ) (prev d : ℚ), List.Chain' (· ≤ ·) (prev :: l) →
      (∀ t ∈ l, t ≤ d + prev) →
      StepsOk d (List.zipWith (fun a b => a - b) l (prev :: l)) := by
  intro l
  induction l with
  | nil =>
    intro prev d _ _
    simp [StepsOk]
  | cons t l' ih =>
    intro prev d hchain hb
    have hpt : prev ≤ t := (List.chain'_cons.mp hchain).1
    simp only [List.zipWith_cons_cons, StepsOk]
    refine ⟨?_, ?_, ?_⟩
    · exact sub_nonneg.mpr hpt
    · have := hb t (List.mem_cons_self t l')
      linarith
    · refine ih t (d - (t - prev)) (List.chain'_cons.mp hchain).2 ?_
      intro s hs
      have := hb s (List.mem_cons_of_mem t hs)
      linarith

lemma assemblyLoop_ok :
    ∀ (items : List (ℚ × ℕ × ℚ)) (video : Clip) (cv : Option Clip),
      items ≠ [] → StepsOk video.dur (items.map (fun x => x.1)) →
      ∃ segs tl, assemblyLoop video cv items = Except.ok (segs, some tl) ∧
        totalDur segs + tl.dur = video.dur + (items.map (fun x => x.2.2)).sum := by
  intro items
  induction items with
  | nil =>
    intro video cv hne _
    exact absurd rfl hne
  | cons x rest ih =>
    intro video cv _ hok
    obtain ⟨r, i, d⟩ := x
    simp only [List.map_cons, StepsOk] at hok
    obtain ⟨hr0, hrd, hrest⟩ := hok
    have hdur0 : (0 : ℚ) ≤ video.dur := le_trans hr0 hrd
    have hc1 : subclip video 0 r = Except.ok ⟨video.offset + 0, r - 0⟩ := by
      simp only [subclip, lt_irrefl (0 : ℚ), if_false, gt_iff_lt, not_lt.mpr hdur0,
        not_lt.mpr hr0]
    have hc2 : subclip video r video.dur = Except.ok ⟨video.offset + r, video.dur - r⟩ := by
      simp only [subclip, not_lt.mpr hr0, if_false, gt_iff_lt, not_lt.mpr hrd,
        not_lt.mpr hdur0]
    by_cases hrnil : rest = []
    · subst hrnil
      refine ⟨[Seg.base (video.offset + 0) (r - 0), Seg.overlay i d],
        ⟨video.offset + r, video.dur - r⟩, ?_, ?_⟩
      · simp only [assemblyLoop, hc1, hc2]
      · simp only [totalDur, segDur, List.map_cons, List.map_nil, List.sum_cons,
          List.sum_nil]
        ring
    · have hok' : StepsOk (video.dur - r) (rest.map (fun x => x.1)) := hrest
      obtain ⟨segs', tl', hloop, hsum⟩ := ih ⟨video.offset + r, video.dur - r⟩
        (some ⟨video.offset + r, video.dur - r⟩) hrnil hok'
      refine ⟨Seg.base (video.offset + 0) (r - 0) :: Seg.overlay i d :: segs', tl', ?_, ?_⟩
      · simp only [assemblyLoop, hc1, hc2, hloop]
      · simp only [totalDur, List.map_cons, List.sum_cons, segDur] at hsum ⊢
        linarith

/-- C3 (amended): duration conservation holds for every run in which the
insertion times, in the order the script processes them (lexicographic order
of the file names), are numerically non-decreasing, non-negative, and below
the video duration — then the assembly succeeds and the output duration is
the video duration plus the sum of the units' audio durations.  (As
literally stated the claim fails: a lexicographic processing order that
scrambles the numeric order can make line 90's `subclip` raise, see the
counterexample.) -/
theorem assemble_duration_conservation (videoDuration : ℚ) (times durs : List ℚ)
    (hne : times ≠ []) (hlen : times.length = durs.length)
    (hsorted : List.Chain' (· ≤ ·) times)
    (hbound : ∀ t ∈ times, 0 ≤ t ∧ t < videoDuration) :
    ∃ segs, assemble videoDuration times durs = Except.ok segs ∧
      totalDur segs = videoDuration + durs.sum := by
  obtain ⟨t0, rest, rfl⟩ := List.exists_cons_of_ne_nil hne
  have hrels : relative_insertion_times (t0 :: rest)
      = 0 :: List.zipWith (fun a b => a - b) rest (t0 :: rest) := rfl
  have hlenr : (relative_insertion_times (t0 :: rest)).length = rest.length + 1 := by
    simp [relative_insertion_times, List.length_zipWith]
  have hlenp : ((List.range durs.length).zip durs).length = durs.length := by
    simp [List.length_zip, List.length_range]
  have hlene : (relative_insertion_times (t0 :: rest)).length
      = ((List.range durs.length).zip durs).length := by
    rw [hlenr, hlenp, ← hlen]
    simp
  have hfst : (((relative_insertion_times (t0 :: rest)).zip
      ((List.range durs.length).zip durs)).map (fun x => x.1))
      = relative_insertion_times (t0 :: rest) :=
    List.map_fst_zip _ _ (le_of_eq hlene)
  have hsnd : (((relative_insertion_times (t0 :: rest)).zip
      ((List.range durs.length).zip durs)).map (fun x => x.2.2)) = durs := by
    have h1 : (((relative_insertion_times (t0 :: rest)).zip
        ((List.range durs.length).zip durs)).map Prod.snd)
        = (List.range durs.length).zip durs :=
      List.map_snd_zip _ _ (le_of_eq hlene.symm)
    have h2 : (((relative_insertion_times (t0 :: rest)).zip
        ((List.range durs.length).zip durs)).map (fun x => x.2.2))
        = ((((relative_insertion_times (t0 :: rest)).zip
          ((List.range durs.length).zip durs)).map Prod.snd).map Prod.snd) := by
      rw [List.map_map]
      rfl
    rw [h2, h1]
    exact List.map_snd_zip _ _ (by simp [List.length_range])
  have ht00 : 0 ≤ t0 := (hbound t0 (List.mem_cons_self t0 rest)).1
  have hV : 0 ≤ videoDuration :=
    le_of_lt (lt_of_le_of_lt ht00 (hbound t0 (List.mem_cons_self t0 rest)).2)
  have hsteps : StepsOk videoDuration (relative_insertion_times (t0 :: rest)) := by
    rw [hrels]
    refine ⟨le_refl 0, hV, ?_⟩
    have hd : videoDuration - 0 = videoDuration := sub_zero videoDuration
    rw [hd]
    refine stepsOk_diffs rest t0 videoDuration hsorted ?_
    intro t ht
    have := (hbound t (List.mem_cons_of_mem t0 ht)).2
    linarith
  have hitems : ((relative_insertion_times (t0 :: rest)).zip
      ((List.range durs.length).zip durs)) ≠ [] := by
    intro hcontra
    have := congrArg List.length hcontra
    rw [List.length_zip, hlenr, hlenp, ← hlen] at this
    simp at this
  obtain ⟨segs, tl, hloop, hsum⟩ := assemblyLoop_ok _ ⟨0, videoDuration⟩ none hitems
    (by rw [hfst]; exact hsteps)
  refine ⟨segs ++ [Seg.base tl.offset tl.dur], ?_, ?_⟩
  · rw [assemble, hloop]
  · rw [hsnd] at hsum
    simp only [totalDur, List.map_append, List.sum_append, List.map_cons,
      List.map_nil, List.sum_cons, List.sum_nil, segDur] at hsum ⊢
    linarith

/-- Witness for C3 (amended), the end-to-end scenario of the specification:
a 10s video with one unit at t = 3s carrying 2s of audio assembles
successfully into a 12s output. -/
theorem assemble_duration_conservation_witness :
    ∃ segs, assemble 10 [3] [2] = Except.ok segs ∧ totalDur segs = 10 + [(2 : ℚ)].sum :=
  assemble_duration_conservation 10 [3] [2] (by simp) (by simp)
    (by simp) (by norm_num)

/-- Counterexample for C3 as stated: a 5s video and three units named
`4000.wav`, `41.wav`, `4900.wav` — all insertion times (4s, 0.041s, 4.9s)
strictly below the video duration.  Lexicographic sorting processes them in
the order 4.0, 0.041, 4.9, the relative retiming becomes [0, -3.959, 4.859],
and at the third step the remaining tail is only 3.959s long, so the
`subclip` of line 90 raises `ValueError`: no output is assembled at all, and
in particular no output of duration `video + Σ audio`. -/
theorem stitch_unordered_names_crash :
    stitch_video_audio "d".toList
      ["4000.wav".toList, "41.wav".toList, "4900.wav".toList,
       "4000.json".toList, "41.json".toList, "4900.json".toList] 5 (fun _ => 1)
      = Except.error MErr.subclipStart := by
  have h3 : audioBaseSet "d".toList
      ["4000.wav".toList, "41.wav".toList, "4900.wav".toList,
       "4000.json".toList, "41.json".toList, "4900.json".toList]
      = jsonBaseSet "d".toList
      ["4000.wav".toList, "41.wav".toList, "4900.wav".toList,
       "4000.json".toList, "41.json".toList, "4900.json".toList] := by decide
  have h1 : audio_files "d".toList
      ["4000.wav".toList, "41.wav".toList, "4900.wav".toList,
       "4000.json".toList, "41.json".toList, "4900.json".toList]
      = ["d/4000.wav".toList, "d/41.wav".toList, "d/4900.wav".toList] := by decide
  have h2 : json_files "d".toList
      ["4000.wav".toList, "41.wav".toList, "4900.wav".toList,
       "4000.json".toList, "41.json".toList, "4900.json".toList]
      = ["d/4000.json".toList, "d/41.json".toList, "d/4900.json".toList] := by decide
  have h4 : pyInt (splitextBase (pyBasename
      ['d', '/', '4', '0', '0', '0', '.', 'w', 'a', 'v'])) = some 4000 := by decide
  have h5 : pyInt (splitextBase (pyBasename
      ['d', '/', '4', '1', '.', 'w', 'a', 'v'])) = some 41 := by decide
  have h6 : pyInt (splitextBase (pyBasename
      ['d', '/', '4', '9', '0', '0', '.', 'w', 'a', 'v'])) = some 4900 := by decide
  rw [stitch_video_audio, if_pos h3, h1, h2]
  norm_num [extractTimes, h4, h5, h6, assemble, relative_insertion_times, assemblyLoop, subclip]

/-! ### Pairing of the two sorted file lists -/

lemma takeWhile_append_stop (p : Char → Bool) :
    ∀ (l1 : List Char) (x : Char) (l2 : List Char),
      (∀ a ∈ l1, p a = true) → p x = false →
      List.takeWhile p (l1 ++ x :: l2) = l1 := by
  intro l1
  induction l1 with
  | nil =>
    intro x l2 _ hx
    simp [List.takeWhile, hx]
  | cons c cs ih =>
    intro x l2 hall hx
    have hc : p c = true := hall c (List.mem_cons_self c cs)
    rw [List.cons_append, List.takeWhile_cons_of_pos hc,
      ih x l2 (fun a ha => hall a (List.mem_cons_of_mem c ha)) hx]

lemma pyBasename_join (d f : PyStr) (hf : '/' ∉ f) : pyBasename (pyJoin d f) = f := by
  unfold pyBasename pyJoin
  have hrev : (d ++ '/' :: f).reverse = f.reverse ++ '/' :: d.reverse := by
    simp
  rw [hrev, takeWhile_append_stop _ f.reverse '/' d.reverse ?_ (by decide)]
  · exact List.reverse_reverse f
  · intro a ha
    have : a ∈ f := List.mem_reverse.mp ha
    exact decide_eq_true (fun h => hf (h ▸ this))

lemma splitextBase_ext (b w : PyStr) (hb : b ≠ []) (hbdot : '.' ∉ b) (hwdot : '.' ∉ w) :
    splitextBase (b ++ '.' :: w) = b := by
  simp only [splitextBase]
  have hrev : (b ++ '.' :: w).reverse = w.reverse ++ '.' :: b.reverse := by
    simp
  have htake : List.takeWhile (fun c => c ≠ '.') ((b ++ '.' :: w).reverse) = w.reverse := by
    rw [hrev]
    refine takeWhile_append_stop _ w.reverse '.' b.reverse ?_ (by decide)
    intro a ha
    have : a ∈ w := List.mem_reverse.mp ha
    exact decide_eq_true (fun h => hwdot (h ▸ this))
  have hlenne : w.reverse.length ≠ (b ++ '.' :: w).reverse.length := by
    simp only [List.length_reverse, List.length_append, List.length_cons]
    omega
  rw [htake]
  rw [if_neg (by rw [List.length_reverse] at hlenne ⊢; exact hlenne)]
  have hdrop : (b ++ '.' :: w).reverse.drop (w.reverse.length + 1) = b.reverse := by
    have h2 : (b ++ '.' :: w).reverse = (w.reverse ++ ['.']) ++ b.reverse := by
      rw [hrev, List.append_assoc]
      rfl
    have h3 : (w.reverse ++ ['.']).length = w.reverse.length + 1 := by
      simp
    rw [h2, ← h3, List.drop_left]
  rw [hdrop]
  obtain ⟨c, b', rfl⟩ := List.exists_cons_of_ne_nil hb
  have hany : (c :: b').reverse.any (fun x => x ≠ '.') = true := by
    refine List.any_eq_true.mpr ⟨c, ?_, ?_⟩
    · exact List.mem_reverse.mpr (List.mem_cons_self c b')
    · exact decide_eq_true (fun h => hbdot (h ▸ List.mem_cons_self c b'))
  rw [if_pos hany, List.reverse_reverse]

lemma strLe_join_ext (d x y u v : PyStr) (hx : '.' ∉ x) (hy : '.' ∉ y) :
    strLe (pyJoin d (x ++ '.' :: u)) (pyJoin d (y ++ '.' :: u))
      = strLe (pyJoin d (x ++ '.' :: v)) (pyJoin d (y ++ '.' :: v)) := by
  unfold pyJoin
  have h1 : ∀ z : PyStr, d ++ '/' :: z = (d ++ ['/']) ++ z := by
    intro z
    rw [List.append_assoc]
    rfl
  rw [h1, h1 (y ++ '.' :: u), h1 (x ++ '.' :: v), h1 (y ++ '.' :: v),
    strLe_append_left, strLe_append_left]
  exact strLe_ext_swap x y u v hx hy

lemma orderedInsert_map (k : PyStr → PyStr) (a : PyStr) :
    ∀ t : List PyStr,
      List.orderedInsert pyLe (k a) (t.map k) = (List.orderedInsert (keyLe k) a t).map k := by
  intro t
  induction t with
  | nil => rfl
  | cons b t' ih =>
    by_cases h : keyLe k a b
    · have h' : pyLe (k a) (k b) := h
      simp [List.orderedInsert, h, h']
    · have h' : ¬ pyLe (k a) (k b) := h
      simp [List.orderedInsert, h, h', ih]

lemma insertionSort_map (k : PyStr → PyStr) (l : List PyStr) :
    pySorted (l.map k) = (List.insertionSort (keyLe k) l).map k := by
  induction l with
  | nil => rfl
  | cons a l' ih =>
    simp only [List.map_cons, pySorted, List.insertionSort] at ih ⊢
    rw [ih, orderedInsert_map k a]

lemma pyJoin_ext_injective (d e : PyStr) :
    Function.Injective (fun b : PyStr => pyJoin d (b ++ e)) := by
  intro x y h
  simp only [pyJoin] at h
  have h1 : x ++ e = y ++ e := by
    have := List.append_cancel_left h
    exact List.cons_injective this  -- placeholder
  exact List.append_cancel_right h1

/-- C10 (amended): in a directory whose audio/trajectory base names are equal
as sets and contain no `'.'` (and no `'/'`, as `os.listdir` guarantees),
zipping the two independently sorted full-path lists pairs each audio file
with the trajectory file of the same base name.  (As literally stated the
claim fails for base names containing a dot, see the counterexample: the
`.wav` and `.json` suffixes can then tip the lexicographic comparisons in
opposite directions.)  `A` and `B` list the base names, in directory order,
of the `.wav` and `.json` entries of the listing `files`. -/
theorem sorted_zip_pairs_same_base (audio_dir : PyStr) (files : List PyStr)
    (A B : List PyStr)
    (hA : files.filter (fun f => pyEndsWith wavExt f) = A.map (fun b => b ++ wavExt))
    (hB : files.filter (fun f => pyEndsWith jsonExt f) = B.map (fun b => b ++ jsonExt))
    (hAnd : A.Nodup) (hBnd : B.Nodup) (hset : A.toFinset = B.toFinset)
    (hgood : ∀ b ∈ A, b ≠ [] ∧ '.' ∉ b ∧ '/' ∉ b) :
    ∀ pr ∈ (audio_files audio_dir files).zip (json_files audio_dir files),
      splitextBase (pyBasename pr.1) = splitextBase (pyBasename pr.2) := by
  haveI : IsTotal PyStr (keyLe (fun b => pyJoin audio_dir (b ++ wavExt))) :=
    ⟨fun a b => strLe_total _ _⟩
  haveI : IsTrans PyStr (keyLe (fun b => pyJoin audio_dir (b ++ wavExt))) :=
    ⟨fun a b c => strLe_trans _ _ _⟩
  haveI : IsTotal PyStr (keyLe (fun b => pyJoin audio_dir (b ++ jsonExt))) :=
    ⟨fun a b => strLe_total _ _⟩
  haveI : IsTrans PyStr (keyLe (fun b => pyJoin audio_dir (b ++ jsonExt))) :=
    ⟨fun a b c => strLe_trans _ _ _⟩
  haveI : IsAntisymm PyStr (keyLe (fun b => pyJoin audio_dir (b ++ jsonExt))) :=
    ⟨fun a b h1 h2 => pyJoin_ext_injective audio_dir jsonExt (strLe_antisymm _ _ h1 h2)⟩
  have haudio : audio_files audio_dir files
      = (List.insertionSort (keyLe (fun b => pyJoin audio_dir (b ++ wavExt))) A).map
        (fun b => pyJoin audio_dir (b ++ wavExt)) := by
    rw [audio_files, hA]
    have hmm : (A.map (fun b => b ++ wavExt)).map (fun f => pyJoin audio_dir f)
        = A.map (fun b => pyJoin audio_dir (b ++ wavExt)) := by
      rw [List.map_map]
      rfl
    rw [hmm, insertionSort_map]
  have hjson : json_files audio_dir files
      = (List.insertionSort (keyLe (fun b => pyJoin audio_dir (b ++ jsonExt))) B).map
        (fun b => pyJoin audio_dir (b ++ jsonExt)) := by
    rw [json_files, hB]
    have hmm : (B.map (fun b => b ++ jsonExt)).map (fun f => pyJoin audio_dir f)
        = B.map (fun b => pyJoin audio_dir (b ++ jsonExt)) := by
      rw [List.map_map]
      rfl
    rw [hmm, insertionSort_map]
  have hkey : ∀ a ∈ A, ∀ b ∈ A,
      keyLe (fun b => pyJoin audio_dir (b ++ wavExt)) a b →
      keyLe (fun b => pyJoin audio_dir (b ++ jsonExt)) a b := by
    intro a ha b hb h
    have hswap := strLe_join_ext audio_dir a b ['w', 'a', 'v'] ['j', 's', 'o', 'n']
      (hgood a ha).2.1 (hgood b hb).2.1
    have h' : strLe (pyJoin audio_dir (a ++ '.' :: ['w', 'a', 'v']))
        (pyJoin audio_dir (b ++ '.' :: ['w', 'a', 'v'])) = true := h
    rw [hswap] at h'
    exact h'
  have hsortedA : List.Sorted (keyLe (fun b => pyJoin audio_dir (b ++ jsonExt)))
      (List.insertionSort (keyLe (fun b => pyJoin audio_dir (b ++ wavExt))) A) := by
    refine List.Pairwise.imp_of_mem ?_
      (List.sorted_insertionSort (keyLe (fun b => pyJoin audio_dir (b ++ wavExt))) A)
    intro a b ha hb hr
    exact hkey a ((List.mem_insertionSort _).mp ha) b ((List.mem_insertionSort _).mp hb) hr
  have hperm : (List.insertionSort (keyLe (fun b => pyJoin audio_dir (b ++ wavExt))) A).Perm
      (List.insertionSort (keyLe (fun b => pyJoin audio_dir (b ++ jsonExt))) B) :=
    ((List.perm_insertionSort _ A).trans
      (List.perm_of_nodup_nodup_toFinset_eq hAnd hBnd hset)).trans
      (List.perm_insertionSort _ B).symm
  have heq : List.insertionSort (keyLe (fun b => pyJoin audio_dir (b ++ wavExt))) A
      = List.insertionSort (keyLe (fun b => pyJoin audio_dir (b ++ jsonExt))) B :=
    List.eq_of_perm_of_sorted hperm hsortedA
      (List.sorted_insertionSort (keyLe (fun b => pyJoin audio_dir (b ++ jsonExt))) B)
  intro pr hpr
  rw [haudio, hjson, ← heq, List.zip_map'] at hpr
  obtain ⟨b, hbmem, rfl⟩ := List.mem_map.mp hpr
  have hbA : b ∈ A := (List.mem_insertionSort _).mp hbmem
  obtain ⟨hbne, hbdot, hbslash⟩ := hgood b hbA
  have hw : '/' ∉ b ++ wavExt := by
    intro h
    rcases List.mem_append.mp h with h | h
    · exact hbslash h
    · revert h
      decide
  have hj : '/' ∉ b ++ jsonExt := by
    intro h
    rcases List.mem_append.mp h with h | h
    · exact hbslash h
    · revert h
      decide
  show splitextBase (pyBasename (pyJoin audio_dir (b ++ wavExt)))
    = splitextBase (pyBasename (pyJoin audio_dir (b ++ jsonExt)))
  rw [pyBasename_join _ _ hw, pyBasename_join _ _ hj]
  have hsw : splitextBase (b ++ '.' :: ['w', 'a', 'v']) = b :=
    splitextBase_ext b ['w', 'a', 'v'] hbne hbdot (by decide)
  have hsj : splitextBase (b ++ '.' :: ['j', 's', 'o', 'n']) = b :=
    splitextBase_ext b ['j', 's', 'o', 'n'] hbne hbdot (by decide)
  rw [show (wavExt : PyStr) = '.' :: ['w', 'a', 'v'] from rfl,
    show (jsonExt : PyStr) = '.' :: ['j', 's', 'o', 'n'] from rfl, hsw, hsj]

/-- Witness for C10 (amended): in a directory with dot-free base names `100`
and `22`, the first zipped pair is `(d/100.wav, d/100.json)` and its two base
names agree. -/
theorem sorted_zip_pairs_same_base_witness :
    splitextBase (pyBasename "d/100.wav".toList)
      = splitextBase (pyBasename "d/100.json".toList) :=
  sorted_zip_pairs_same_base "d".toList
    ["100.wav".toList, "22.wav".toList, "100.json".toList, "22.json".toList]
    ["100".toList, "22".toList] ["100".toList, "22".toList]
    (by decide) (by decide) (by decide) (by decide) rfl (by decide)
    ("d/100.wav".toList, "d/100.json".toList) (by decide)

/-- Counterexample for C10 as stated: the directory
`{a.wav, a.w.wav, a.json, a.w.json}` has equal audio/trajectory base-name
sets (`{a, a.w}`), yet zipping the two sorted lists pairs `d/a.w.wav` with
`d/a.json`: sorting full paths puts `a.w.wav` before `a.wav` (at index 3,
`'.' < 'a'`) but `a.json` before `a.w.json` (at index 2, `'j' < 'w'`). -/
theorem sorted_zip_mismatch_dotted_base :
    audioBaseSet "d".toList
        ["a.wav".toList, "a.w.wav".toList, "a.json".toList, "a.w.json".toList]
      = jsonBaseSet "d".toList
        ["a.wav".toList, "a.w.wav".toList, "a.json".toList, "a.w.json".toList] ∧
    ∃ pr ∈ (audio_files "d".toList
        ["a.wav".toList, "a.w.wav".toList, "a.json".toList, "a.w.json".toList]).zip
      (json_files "d".toList
        ["a.wav".toList, "a.w.wav".toList, "a.json".toList, "a.w.json".toList]),
      splitextBase (pyBasename pr.1) ≠ splitextBase (pyBasename pr.2) := by
  decide

/-- Witness for C7: a directory containing only `a.wav` (audio base set
`{a}`, trajectory base set empty) makes the run abort with the line 45
assertion. -/
theorem validation_aborts_iff_base_sets_differ_witness :
    stitch_video_audio "d".toList ["a.wav".toList] 1 (fun _ => 1)
      = Except.error MErr.assertFailed :=
  (validation_aborts_iff_base_sets_differ "d".toList ["a.wav".toList] 1 (fun _ => 1)).mpr
    (by decide)
